import Mathlib

/-!
Verification of the genotype-concordance core of `vcfgtcheck.c` (bcftools
gtcheck).  The definitions below are a shallow embedding of the comparator
macros, the per-site accumulation loops (`process_line`), the HWE scoring
formulas, the distinctive-sites drain (`report_distinctive_sites`) and the
top-K sort key (`report`).  Machine `int32_t` values are modelled as `Int`
with the htslib sentinels as explicit constants; C `double` accumulators are
modelled as exact rationals (the real-log HWE formulas are treated over `ℝ`
separately).  Genotype (GT) entries are modelled after htslib decoding,
which is outside the core per the specification: an entry is the missing
sentinel, the vector-end sentinel, or an allele index.
-/

namespace Gtcheck

/-- htslib sentinel `bcf_int32_missing` (INT32_MIN). -/
def bcf_int32_missing : Int := -2147483648

/-- htslib sentinel `bcf_int32_vector_end` (INT32_MIN + 1). -/
def bcf_int32_vector_end : Int := -2147483647

/-- One decoded GT slot: missing sentinel, vector-end sentinel, or an
allele index.  Decoding of the packed htslib representation is external
to the core. -/
inductive GTval where
  | missing : GTval
  | vectorEnd : GTval
  | allele : Nat → GTval
deriving DecidableEq

/-- A per-sample hard-call block: two allele slots (diploid). -/
structure GTpair where
  a0 : GTval
  a1 : GTval
deriving DecidableEq

/-- A per-sample likelihood block: the three PL values (diploid, biallelic). -/
structure PL3 where
  p0 : Int
  p1 : Int
  p2 : Int
deriving DecidableEq

/-- Models `bcf_gt_is_missing` on a decoded slot. -/
def gtIsMissing : GTval → Bool
  | .missing => true
  | _ => false

/-- Is the slot the vector-end sentinel (`ptr[1]==bcf_int32_vector_end`)? -/
def gtIsVectorEnd : GTval → Bool
  | .vectorEnd => true
  | _ => false

/-- Models the C test `bcf_gt_allele(v) ? 1 : 0`: a nonzero allele index
counts as alt.  On the sentinels `bcf_gt_allele` yields a nonzero value
(-1 on missing), hence `true`; such slots are filtered out by `HAS_GT`
before any dosage is consumed. -/
def gtAlleleNonzero : GTval → Bool
  | .allele a => a != 0
  | _ => true

/-- Macro `HAS_GT(ptr)`:
`!bcf_gt_is_missing(ptr[0]) && !bcf_gt_is_missing(ptr[1]) && ptr[1]!=bcf_int32_vector_end`. -/
def HAS_GT (g : GTpair) : Bool :=
  !(gtIsMissing g.a0) && !(gtIsMissing g.a1) && !(gtIsVectorEnd g.a1)

/-- Macro `DSG_GT(ptr)`:
`(bcf_gt_allele(ptr[0])?1:0) + (bcf_gt_allele(ptr[1])?1:0)`. -/
def DSG_GT (g : GTpair) : Nat :=
  (if gtAlleleNonzero g.a0 then 1 else 0) + (if gtAlleleNonzero g.a1 then 1 else 0)

/-- Macro `HAS_PL(ptr)`:
`ptr[0]!=missing && ptr[1]!=missing && ptr[2]!=missing && ptr[1]!=vector_end && ptr[2]!=vector_end`. -/
def HAS_PL (t : PL3) : Bool :=
  t.p0 != bcf_int32_missing && t.p1 != bcf_int32_missing && t.p2 != bcf_int32_missing &&
  t.p1 != bcf_int32_vector_end && t.p2 != bcf_int32_vector_end

/-- Macro `MIN_PL(ptr)`:
`ptr[0]<ptr[1] ? (ptr[0]<ptr[2]?ptr[0]:ptr[2]) : (ptr[1]<ptr[2]?ptr[1]:ptr[2])`. -/
def MIN_PL (t : PL3) : Int :=
  if t.p0 < t.p1 then (if t.p0 < t.p2 then t.p0 else t.p2)
  else (if t.p1 < t.p2 then t.p1 else t.p2)

/-- Macro `DSG_PL(ptr)`:
`ptr[0]<ptr[1] ? (ptr[0]<ptr[2]?0:2) : (ptr[1]<ptr[2]?1:2)`. -/
def DSG_PL (t : PL3) : Nat :=
  if t.p0 < t.p1 then (if t.p0 < t.p2 then 0 else 2)
  else (if t.p1 < t.p2 then 1 else 2)

/-- Indexing `ptr[k]` into a PL triple. -/
def plGet (t : PL3) : Nat → Int
  | 0 => t.p0
  | 1 => t.p1
  | _ => t.p2

/-- Modelled from the spec (§4.1): the dosage of a likelihood triple with
ties resolved to the LOWEST index attaining the minimum, checked in order
0,1,2.  This is the tie-break rule the specification asserts; it is kept
separate from the source macro `DSG_PL` so the two can be compared. -/
def dsgLowest (t : PL3) : Nat :=
  if t.p0 ≤ t.p1 ∧ t.p0 ≤ t.p2 then 0
  else if t.p1 ≤ t.p2 then 1 else 2

/-- The PL-vs-PL match scan of `process_line`:
`for (k=0; k<3; k++) if (aptr[k]==aval && bptr[k]==bval) match=1;`
with `aval=MIN_PL(aptr)`, `bval=MIN_PL(bptr)`. -/
def matchPLPL (a b : PL3) : Bool :=
  [0, 1, 2].any (fun k => plGet a k == MIN_PL a && plGet b k == MIN_PL b)

/-- The per-pair accumulator arrays of `args_t`: `ndiff` (mismatches),
`ncnt` (comparisons) and `hwe_prob`, indexed by pair index.  The C
`double` scores are modelled as exact rationals. -/
structure Accum where
  ndiff : Nat → Nat
  ncnt : Nat → Nat
  hweP : Nat → ℚ

/-- The freshly `calloc`-ed accumulator arrays of `init_data`. -/
def initAccum : Accum := ⟨fun _ => 0, fun _ => 0, fun _ => 0⟩

/-- `args->ndiff[i]++; args->ncnt[i]++;` — the mismatch branch. -/
def bumpDiff (i : Nat) (acc : Accum) : Accum :=
  { acc with ndiff := Function.update acc.ndiff i (acc.ndiff i + 1),
             ncnt := Function.update acc.ncnt i (acc.ncnt i + 1) }

/-- `if (calc_hwe_prob) hwe_prob[i] += hwe[dsg]; ncnt[i]++;` — the match
branch (`dsg` is the query-side dosage class selecting into `hwe[3]`). -/
def bumpMatch (calcHwe : Bool) (hweS : Nat → ℚ) (dsg i : Nat) (acc : Accum) : Accum :=
  { acc with ncnt := Function.update acc.ncnt i (acc.ncnt i + 1),
             hweP := if calcHwe then Function.update acc.hweP i (acc.hweP i + hweS dsg)
                     else acc.hweP }

/-- Loop body of the explicit-pairs GT-vs-GT branch of `process_line`. -/
def stepGTGT (homOnly calcHwe : Bool) (hweS : Nat → ℚ) (i : Nat)
    (a b : GTpair) (acc : Accum) : Accum :=
  if !HAS_GT a then acc
  else if !HAS_GT b then acc
  else
    let aval := DSG_GT a
    let bval := DSG_GT b
    if homOnly && bval == 1 then acc
    else if aval != bval then bumpDiff i acc
    else bumpMatch calcHwe hweS aval i acc

/-- Loop body of the explicit-pairs PL-vs-PL branch of `process_line`.
The homozygous-only filter tests `bptr[1]==bval` (minimum attained at the
heterozygous slot). -/
def stepPLPL (homOnly calcHwe : Bool) (hweS : Nat → ℚ) (i : Nat)
    (a b : PL3) (acc : Accum) : Accum :=
  if !HAS_PL a then acc
  else if !HAS_PL b then acc
  else
    let bval := MIN_PL b
    if homOnly && b.p1 == bval then acc
    else if !matchPLPL a b then bumpDiff i acc
    else bumpMatch calcHwe hweS (DSG_PL a) i acc

/-- Loop body of the explicit-pairs GT-query vs PL-truth branch of
`process_line`: mismatch iff `bptr[aval]!=bval` with `aval=DSG_GT(aptr)`,
`bval=MIN_PL(bptr)`. -/
def stepGTPL (homOnly calcHwe : Bool) (hweS : Nat → ℚ) (i : Nat)
    (a : GTpair) (b : PL3) (acc : Accum) : Accum :=
  if !HAS_GT a then acc
  else if !HAS_PL b then acc
  else
    let aval := DSG_GT a
    let bval := MIN_PL b
    if homOnly && b.p1 == bval then acc
    else if plGet b aval != bval then bumpDiff i acc
    else bumpMatch calcHwe hweS aval i acc

/-- Loop body of the explicit-pairs PL-query vs GT-truth branch of
`process_line`: mismatch iff `aptr[bval]!=aval` with `aval=MIN_PL(aptr)`,
`bval=DSG_GT(bptr)`. -/
def stepPLGT (homOnly calcHwe : Bool) (hweS : Nat → ℚ) (i : Nat)
    (a : PL3) (b : GTpair) (acc : Accum) : Accum :=
  if !HAS_PL a then acc
  else if !HAS_GT b then acc
  else
    let aval := MIN_PL a
    let bval := DSG_GT b
    if homOnly && bval == 1 then acc
    else if plGet a bval != aval then bumpDiff i acc
    else bumpMatch calcHwe hweS (DSG_PL a) i acc

/-- The run configuration relevant to `process_line`: representation flags
(`qry_use_GT`, `gt_use_GT`), presence of a second file (`gt_hdr`), the
filters, the explicit pair list (`args->pairs`, if given) and the sample
selections for matrix modes. -/
structure Cfg where
  qryUseGT : Bool
  gtUseGT : Bool
  twoFiles : Bool
  homOnly : Bool
  calcHwe : Bool
  crossCheck : Bool
  pairs : Option (List (Nat × Nat))
  nqrySmpl : Nat
  ngtSmpl : Nat
  qrySmpl : Option (List Nat)
  gtSmpl : Option (List Nat)

/-- One variant site as `process_line` sees it through the external
variant source: the return values of the `bcf_get_*` fetches, the header
sample counts, the per-sample data blocks, whether `bcf_calc_ac`
succeeded, and the site's `hwe[3]` scores (their real-log formulas are
verified separately). -/
structure Site where
  qryFetch : Int
  gtFetch : Int
  nQryHdr : Nat
  nGtHdr : Nat
  qryGT : Nat → GTpair
  qryPL : Nat → PL3
  gtGT : Nat → GTpair
  gtPL : Nat → PL3
  acOk : Bool
  hweS : Nat → ℚ

/-- The query-side shape check of `process_line`: the fetch must succeed
(`nqry1 > 0`) and the flat array must hold exactly 2 (GT) or 3 (PL)
values per header sample — otherwise the site is skipped. -/
def qryShapeOk (cfg : Cfg) (s : Site) : Bool :=
  if cfg.qryUseGT then
    decide (0 < s.qryFetch) && decide (s.qryFetch = 2 * (s.nQryHdr : Int))
  else
    decide (0 < s.qryFetch) && decide (s.qryFetch = 3 * (s.nQryHdr : Int))

/-- The truth-side shape check of `process_line` (only reached when a
second file is open). -/
def gtShapeOk (cfg : Cfg) (s : Site) : Bool :=
  if cfg.gtUseGT then
    decide (0 < s.gtFetch) && decide (s.gtFetch = 2 * (s.nGtHdr : Int))
  else
    decide (0 < s.gtFetch) && decide (s.gtFetch = 3 * (s.nGtHdr : Int))

/-- `args->qry_smpl ? args->qry_smpl[i] : i` — the optional sample
subset indirection. -/
def selIdx : Option (List Nat) → Nat → Nat
  | some l, i => l.getD i 0
  | none, i => i

/-- The explicit-pairs section of `process_line` (`if (args->pairs)`):
one of four representation-specialised loops over the pair list, each
pair `i` updating accumulator slot `i`.  In single-file runs the truth
side reads the query arrays (`args->gt_arr = args->qry_arr`). -/
def processPairs (cfg : Cfg) (s : Site) (ps : List (Nat × Nat)) (acc : Accum) : Accum :=
  let bGT := if cfg.twoFiles then s.gtGT else s.qryGT
  let bPL := if cfg.twoFiles then s.gtPL else s.qryPL
  if cfg.qryUseGT && cfg.gtUseGT then
    ps.enum.foldl
      (fun ac x => stepGTGT cfg.homOnly cfg.calcHwe s.hweS x.1 (s.qryGT x.2.1) (bGT x.2.2) ac) acc
  else if !cfg.qryUseGT && !cfg.gtUseGT then
    ps.enum.foldl
      (fun ac x => stepPLPL cfg.homOnly cfg.calcHwe s.hweS x.1 (s.qryPL x.2.1) (bPL x.2.2) ac) acc
  else if cfg.qryUseGT then
    ps.enum.foldl
      (fun ac x => stepGTPL cfg.homOnly cfg.calcHwe s.hweS x.1 (s.qryGT x.2.1) (bPL x.2.2) ac) acc
  else
    ps.enum.foldl
      (fun ac x => stepPLGT cfg.homOnly cfg.calcHwe s.hweS x.1 (s.qryPL x.2.1) (bGT x.2.2) ac) acc

/-- Matrix-mode GT-vs-GT double loop of `process_line` with the running
pair index `idx` threaded through: an invalid query row skips `ngt`
slots, every inner iteration advances `idx` by one. -/
def matrixGTGT (cfg : Cfg) (hweS : Nat → ℚ) (aD : Nat → GTpair) (bD : Nat → GTpair)
    (acc : Accum) : Accum :=
  ((List.range cfg.nqrySmpl).foldl (fun st i =>
    let ngt := if cfg.crossCheck then i else cfg.ngtSmpl
    let aptr := aD (selIdx cfg.qrySmpl i)
    if !HAS_GT aptr then (st.1 + ngt, st.2)
    else
      let aval := DSG_GT aptr
      (List.range ngt).foldl (fun st2 j =>
        let bptr := bD (selIdx cfg.gtSmpl j)
        if !HAS_GT bptr then (st2.1 + 1, st2.2)
        else
          let bval := DSG_GT bptr
          if cfg.homOnly && bval == 1 then (st2.1 + 1, st2.2)
          else if aval != bval then (st2.1 + 1, bumpDiff st2.1 st2.2)
          else (st2.1 + 1, bumpMatch cfg.calcHwe hweS aval st2.1 st2.2)) st)
    (0, acc)).2

/-- Matrix-mode PL-vs-PL double loop of `process_line`. -/
def matrixPLPL (cfg : Cfg) (hweS : Nat → ℚ) (aD : Nat → PL3) (bD : Nat → PL3)
    (acc : Accum) : Accum :=
  ((List.range cfg.nqrySmpl).foldl (fun st i =>
    let ngt := if cfg.crossCheck then i else cfg.ngtSmpl
    let aptr := aD (selIdx cfg.qrySmpl i)
    if !HAS_PL aptr then (st.1 + ngt, st.2)
    else
      (List.range ngt).foldl (fun st2 j =>
        let bptr := bD (selIdx cfg.gtSmpl j)
        if !HAS_PL bptr then (st2.1 + 1, st2.2)
        else
          let bval := MIN_PL bptr
          if cfg.homOnly && bval == bptr.p1 then (st2.1 + 1, st2.2)
          else if !matchPLPL aptr bptr then (st2.1 + 1, bumpDiff st2.1 st2.2)
          else (st2.1 + 1, bumpMatch cfg.calcHwe hweS (DSG_PL aptr) st2.1 st2.2)) st)
    (0, acc)).2

/-- Matrix-mode GT-query vs PL-truth double loop of `process_line`. -/
def matrixGTPL (cfg : Cfg) (hweS : Nat → ℚ) (aD : Nat → GTpair) (bD : Nat → PL3)
    (acc : Accum) : Accum :=
  ((List.range cfg.nqrySmpl).foldl (fun st i =>
    let ngt := if cfg.crossCheck then i else cfg.ngtSmpl
    let aptr := aD (selIdx cfg.qrySmpl i)
    if !HAS_GT aptr then (st.1 + ngt, st.2)
    else
      let aval := DSG_GT aptr
      (List.range ngt).foldl (fun st2 j =>
        let bptr := bD (selIdx cfg.gtSmpl j)
        if !HAS_PL bptr then (st2.1 + 1, st2.2)
        else
          let bval := MIN_PL bptr
          if cfg.homOnly && bval == bptr.p1 then (st2.1 + 1, st2.2)
          else if plGet bptr aval != bval then (st2.1 + 1, bumpDiff st2.1 st2.2)
          else (st2.1 + 1, bumpMatch cfg.calcHwe hweS aval st2.1 st2.2)) st)
    (0, acc)).2

/-- Matrix-mode PL-query vs GT-truth double loop of `process_line`. -/
def matrixPLGT (cfg : Cfg) (hweS : Nat → ℚ) (aD : Nat → PL3) (bD : Nat → GTpair)
    (acc : Accum) : Accum :=
  ((List.range cfg.nqrySmpl).foldl (fun st i =>
    let ngt := if cfg.crossCheck then i else cfg.ngtSmpl
    let aptr := aD (selIdx cfg.qrySmpl i)
    if !HAS_PL aptr then (st.1 + ngt, st.2)
    else
      let aval := MIN_PL aptr
      (List.range ngt).foldl (fun st2 j =>
        let bptr := bD (selIdx cfg.gtSmpl j)
        if !HAS_GT bptr then (st2.1 + 1, st2.2)
        else
          let bval := DSG_GT bptr
          if cfg.homOnly && bval == 1 then (st2.1 + 1, st2.2)
          else if plGet aptr bval != aval then (st2.1 + 1, bumpDiff st2.1 st2.2)
          else (st2.1 + 1, bumpMatch cfg.calcHwe hweS (DSG_PL aptr) st2.1 st2.2)) st)
    (0, acc)).2

/-- The comparison core of `process_line`, after the shape checks and
(optional) HWE preparation: either the explicit-pairs loops or the
matrix-mode loops, by representation flags. -/
def processCore (cfg : Cfg) (s : Site) (acc : Accum) : Accum :=
  match cfg.pairs with
  | some ps => processPairs cfg s ps acc
  | none =>
    let bGT := if cfg.twoFiles then s.gtGT else s.qryGT
    let bPL := if cfg.twoFiles then s.gtPL else s.qryPL
    if cfg.qryUseGT && cfg.gtUseGT then matrixGTGT cfg s.hweS s.qryGT bGT acc
    else if !cfg.qryUseGT && !cfg.gtUseGT then matrixPLPL cfg s.hweS s.qryPL bPL acc
    else if cfg.qryUseGT then matrixGTPL cfg s.hweS s.qryGT bPL acc
    else matrixPLGT cfg s.hweS s.qryPL bGT acc

/-- `process_line`: a failed query- or truth-side shape check silently
skips the site (early `return`); a failed `bcf_calc_ac` during HWE
preparation is fatal (`throw_and_clean`); otherwise the comparison core
runs. -/
def process_line (cfg : Cfg) (s : Site) (acc : Accum) : Except Unit Accum :=
  if !qryShapeOk cfg s then Except.ok acc
  else if cfg.twoFiles && !gtShapeOk cfg s then Except.ok acc
  else if cfg.calcHwe && !s.acOk then Except.error ()
  else Except.ok (processCore cfg s acc)

/-- The main streaming loop of `main_vcfgtcheck`: fold `process_line`
over the variant stream, stopping at a fatal error. -/
def processStream (cfg : Cfg) : Accum → List Site → Except Unit Accum
  | acc, [] => Except.ok acc
  | acc, s :: rest =>
    match process_line cfg s acc with
    | Except.error e => Except.error e
    | Except.ok acc' => processStream cfg acc' rest

/-- `const double min_af = 1e-3;` of `process_line`. -/
noncomputable def min_af : ℝ := 1 / 1000

/-- Argument of the logarithm in
`hwe[0] = af>min_af ? -log(af*af) : -log(min_af*min_af);`. -/
noncomputable def hweArg0 (af : ℝ) : ℝ :=
  if min_af < af then af * af else min_af * min_af

/-- Argument of the logarithm in
`hwe[1] = af>min_af && af<1-min_af ? -log(2*af*(1-af)) : -log(2*min_af*(1-min_af));`. -/
noncomputable def hweArg1 (af : ℝ) : ℝ :=
  if min_af < af ∧ af < 1 - min_af then 2 * af * (1 - af) else 2 * min_af * (1 - min_af)

/-- Argument of the logarithm in
`hwe[2] = af<1-min_af ? -log((1-af)*(1-af)) : -log(min_af*min_af);`. -/
noncomputable def hweArg2 (af : ℝ) : ℝ :=
  if af < 1 - min_af then (1 - af) * (1 - af) else min_af * min_af

/-- `hwe[0]` as computed by `process_line`. -/
noncomputable def hwe0 (af : ℝ) : ℝ := -Real.log (hweArg0 af)

/-- `hwe[1]` as computed by `process_line`. -/
noncomputable def hwe1 (af : ℝ) : ℝ := -Real.log (hweArg1 af)

/-- `hwe[2]` as computed by `process_line`. -/
noncomputable def hwe2 (af : ℝ) : ℝ := -Real.log (hweArg2 af)

/-- Modelled from the spec: `clamp(x, ε, 1-ε)` with `ε = min_af`, used
only to restate the specification's form of the HWE scores. -/
noncomputable def clampE (x : ℝ) : ℝ := min (max x min_af) (1 - min_af)

/-- State of the distinctive-sites drain in `report_distinctive_sites`:
the per-block bitset `kbs_blk`, the running total `ndiff_tot`, the block
counter `iblock`, and the `DS` lines printed so far
(as `(cumulative count, block id)` pairs). -/
structure DrainSt where
  blk : Finset Nat
  tot : Nat
  iblock : Nat
  lines : List (Nat × Nat)
deriving DecidableEq

/-- One iteration of the drain loop of `report_distinctive_sites` on a
popped record `(stored ndiff, bitset)`: recount the bitset while merging
it into `kbs_blk`; a recount different from the stored `ndiff` is fatal
(`throw_and_clean("Corrupted data, ...")`); a record with no newly
distinguished pair is skipped; otherwise a `DS` line is emitted and, once
`ndiff_tot` reaches `ndiff_min`, the block is closed and reset. -/
def ds_step (ndiff_min : Nat) (st : DrainSt) (r : Nat × Finset Nat) : Except Unit DrainSt :=
  if (r.2).card ≠ r.1 then Except.error ()
  else if ((r.2) \ st.blk).card = 0 then Except.ok { st with blk := st.blk ∪ r.2 }
  else if st.tot + ((r.2) \ st.blk).card < ndiff_min then
    Except.ok ⟨st.blk ∪ r.2, st.tot + ((r.2) \ st.blk).card, st.iblock,
      st.lines ++ [(st.tot + ((r.2) \ st.blk).card, st.iblock)]⟩
  else Except.ok ⟨∅, 0, st.iblock + 1,
    st.lines ++ [(st.tot + ((r.2) \ st.blk).card, st.iblock)]⟩

/-- The drain loop over the sorted records (`while diff_sites_shift`). -/
def ds_drain (ndiff_min : Nat) : DrainSt → List (Nat × Finset Nat) → Except Unit DrainSt
  | st, [] => Except.ok st
  | st, r :: rs =>
    match ds_step ndiff_min st r with
    | Except.error e => Except.error e
    | Except.ok st' => ds_drain ndiff_min st' rs

/-- `report_distinctive_sites` from the initial empty state (`kbs_blk`
cleared, `ndiff_tot = 0`, `iblock = 0`). -/
def ds_run (ndiff_min : Nat) (recs : List (Nat × Finset Nat)) : Except Unit DrainSt :=
  ds_drain ndiff_min ⟨∅, 0, 0, []⟩ recs

/-- The guarded top-K sort key of `report`:
`arr[j].val = ncnt[idx] ? (double)ndiff[idx]/ncnt[idx] : 0;`. -/
def sortKeyVal (ndiff ncnt : Nat) : ℚ :=
  if ncnt ≠ 0 then (ndiff : ℚ) / (ncnt : ℚ) else 0

/-- `cmp_idbl`, the qsort comparator on sort keys (ascending). -/
def cmp_idbl (a b : ℚ) : Int :=
  if a < b then -1 else if b < a then 1 else 0

/-- The cross-check enumeration order of `process_line`: outer loop over
query samples `i`, inner loop over `j < i`. -/
def crossPairs (n : Nat) : List (Nat × Nat) :=
  (List.range n).flatMap (fun i => (List.range i).map (fun j => (i, j)))

/-- The triangular pair index `i*(i-1)/2 + j` used by `report` to invert
the running `idx` of the cross-check loops. -/
def triIdx (p : Nat × Nat) : Nat := p.1 * (p.1 - 1) / 2 + p.2

/-- The cross-check accumulator allocation of `init_data`:
`args->npairs = args->nqry_smpl*(args->nqry_smpl+1)/2`. -/
def nPairsCross (n : Nat) : Nat := n * (n + 1) / 2

lemma plGet_zero (t : PL3) : plGet t 0 = t.p0 := rfl

lemma plGet_one (t : PL3) : plGet t 1 = t.p1 := rfl

lemma plGet_two (t : PL3) : plGet t 2 = t.p2 := rfl

lemma minPL_le (t : PL3) : ∀ k, k < 3 → MIN_PL t ≤ plGet t k := by
  intro k hk
  interval_cases k <;>
    simp only [plGet_zero, plGet_one, plGet_two, MIN_PL] <;> split_ifs <;> omega

lemma dsgPL_attains (t : PL3) : plGet t (DSG_PL t) = MIN_PL t := by
  unfold DSG_PL MIN_PL
  split_ifs <;> rfl

lemma dsgPL_lt_three (t : PL3) : DSG_PL t < 3 := by
  unfold DSG_PL
  split_ifs <;> norm_num

lemma dsgPL_greatest (t : PL3) : ∀ k, k < 3 → plGet t k = MIN_PL t → k ≤ DSG_PL t := by
  intro k hk hmin
  unfold DSG_PL
  unfold MIN_PL at hmin
  interval_cases k <;>
    simp only [plGet_zero, plGet_one, plGet_two] at hmin <;>
    split_ifs at hmin ⊢ <;> omega

lemma dsgLowest_lt_three (t : PL3) : dsgLowest t < 3 := by
  unfold dsgLowest
  split_ifs <;> norm_num

lemma dsgLowest_attains (t : PL3) : plGet t (dsgLowest t) = MIN_PL t := by
  unfold dsgLowest MIN_PL
  split_ifs <;> simp only [plGet_zero, plGet_one, plGet_two] <;> omega

lemma dsgGT_lt_three (g : GTpair) : DSG_GT g < 3 := by
  unfold DSG_GT
  split_ifs <;> norm_num

lemma matchPLPL_iff (a b : PL3) :
    matchPLPL a b = true ↔ ∃ k, k < 3 ∧ plGet a k = MIN_PL a ∧ plGet b k = MIN_PL b := by
  constructor
  · intro h
    simp only [matchPLPL, List.any_eq_true, Bool.and_eq_true, beq_iff_eq] at h
    obtain ⟨k, hk, h1, h2⟩ := h
    have hk3 : k < 3 := by
      have : k = 0 ∨ k = 1 ∨ k = 2 := by simpa using hk
      omega
    exact ⟨k, hk3, h1, h2⟩
  · rintro ⟨k, hk, h1, h2⟩
    simp only [matchPLPL, List.any_eq_true, Bool.and_eq_true, beq_iff_eq]
    refine ⟨k, ?_, h1, h2⟩
    simp only [List.mem_cons, List.mem_singleton]
    omega

/-- C1 (amended): for every valid PL triple, the derived dosage class
`DSG_PL` is an index attaining the minimum of the three values and lies
in {0,1,2}; when two or more entries tie for the minimum the dosage
resolves to the HIGHEST tied index (so an all-equal triple has dosage 2,
not 0 as the claim states). -/
theorem dsg_pl_argmin (t : PL3) (_h : HAS_PL t = true) :
    plGet t (DSG_PL t) = MIN_PL t ∧ DSG_PL t < 3 ∧
      ∀ k, k < 3 → plGet t k = MIN_PL t → k ≤ DSG_PL t :=
  ⟨dsgPL_attains t, dsgPL_lt_three t, dsgPL_greatest t⟩

/-- C1 witness: the amended statement instantiated at the valid triple
(1,2,3). -/
theorem dsg_pl_argmin_witness :
    HAS_PL (⟨1, 2, 3⟩ : PL3) = true ∧
      plGet (⟨1, 2, 3⟩ : PL3) (DSG_PL ⟨1, 2, 3⟩) = MIN_PL ⟨1, 2, 3⟩ :=
  ⟨by decide, (dsg_pl_argmin ⟨1, 2, 3⟩ (by decide)).1⟩

/-- C1 counterexample: the all-equal valid triple (5,5,5) has
`DSG_PL = 2`, refuting the claim that ties resolve to the lowest index
(which would give dosage 0 for an all-equal triple). -/
theorem dsg_pl_ties_cex :
    HAS_PL (⟨5, 5, 5⟩ : PL3) = true ∧ DSG_PL (⟨5, 5, 5⟩ : PL3) = 2 ∧
      DSG_PL (⟨5, 5, 5⟩ : PL3) ≠ 0 := by
  decide

/-- C2 (amended): in call-vs-likelihood comparison (either orientation),
with both sides valid, the result is Match iff the PL value at the call
side's dosage index equals the minimum of the likelihood triple — i.e.
iff the call dosage attains the likelihood minimum, a tie at that index
counting as Match (no tie-breaking is applied to the likelihood vector). -/
theorem gt_vs_pl_match_iff (calcHwe : Bool) (hweS : Nat → ℚ) (i : Nat)
    (a : GTpair) (b : PL3) (acc : Accum)
    (ha : HAS_GT a = true) (hb : HAS_PL b = true) :
    ((stepGTPL false calcHwe hweS i a b acc).ndiff i = acc.ndiff i ↔
      plGet b (DSG_GT a) = MIN_PL b) ∧
    ((stepPLGT false calcHwe hweS i b a acc).ndiff i = acc.ndiff i ↔
      plGet b (DSG_GT a) = MIN_PL b) ∧
    (plGet b (DSG_GT a) = MIN_PL b ↔ ∀ k, k < 3 → plGet b (DSG_GT a) ≤ plGet b k) := by
  have hmono : ∀ acc2, (bumpDiff i acc2).ndiff i = acc2.ndiff i + 1 := by
    intro acc2
    simp [bumpDiff]
  have hkeep : ∀ c hs d acc2, (bumpMatch c hs d i acc2).ndiff i = acc2.ndiff i := by
    intro c hs d acc2
    simp [bumpMatch]
  refine ⟨?_, ?_, ?_⟩
  · unfold stepGTPL
    simp only [ha, hb, Bool.not_true, Bool.false_and, Bool.false_eq_true, if_false,
      bne_iff_ne, ne_eq, ite_not]
    by_cases h : plGet b (DSG_GT a) = MIN_PL b
    · simp [h, hkeep]
    · simp [h, hmono]
  · unfold stepPLGT
    simp only [ha, hb, Bool.not_true, Bool.false_and, Bool.false_eq_true, if_false,
      bne_iff_ne, ne_eq, ite_not]
    by_cases h : plGet b (DSG_GT a) = MIN_PL b
    · simp [h, hkeep]
    · simp [h, hmono]
  · constructor
    · intro he k hk
      rw [he]
      exact minPL_le b k hk
    · intro hall
      have h1 := minPL_le b (DSG_GT a) (dsgGT_lt_three a)
      have h2 := hall (DSG_PL b) (dsgPL_lt_three b)
      rw [dsgPL_attains b] at h2
      exact le_antisymm h2 h1

/-- C2 witness: the amended statement instantiated at the valid call 0/0
and the valid likelihood triple (0,1,2). -/
theorem gt_vs_pl_match_iff_witness :
    (stepGTPL false false (fun _ => 0) 0 ⟨GTval.allele 0, GTval.allele 0⟩
        (⟨0, 1, 2⟩ : PL3) initAccum).ndiff 0 = initAccum.ndiff 0 ↔
      plGet (⟨0, 1, 2⟩ : PL3) (DSG_GT ⟨GTval.allele 0, GTval.allele 0⟩) =
        MIN_PL (⟨0, 1, 2⟩ : PL3) :=
  (gt_vs_pl_match_iff false (fun _ => 0) 0 ⟨GTval.allele 0, GTval.allele 0⟩
    ⟨0, 1, 2⟩ initAccum (by decide) (by decide)).1

/-- C2 counterexample: the claim's own example.  Call side 0/1 (dosage 1)
against the likelihood vector (3,3,5), whose lowest-tie-broken dosage is
0: the claim demands Mismatch, but the code records a Match (`ndiff`
stays 0 while `ncnt` is incremented) because `bptr[1]` equals the
minimum. -/
theorem gt_vs_pl_tiebreak_cex :
    HAS_GT (⟨GTval.allele 0, GTval.allele 1⟩ : GTpair) = true ∧
    HAS_PL (⟨3, 3, 5⟩ : PL3) = true ∧
    DSG_GT (⟨GTval.allele 0, GTval.allele 1⟩ : GTpair) = 1 ∧
    dsgLowest (⟨3, 3, 5⟩ : PL3) = 0 ∧
    (stepGTPL false false (fun _ => 0) 0 ⟨GTval.allele 0, GTval.allele 1⟩
      ⟨3, 3, 5⟩ initAccum).ndiff 0 = 0 ∧
    (stepGTPL false false (fun _ => 0) 0 ⟨GTval.allele 0, GTval.allele 1⟩
      ⟨3, 3, 5⟩ initAccum).ncnt 0 = 1 := by
  decide

/-- C7 (amended): for valid likelihood triples the match scan succeeds
iff some index attains both minima simultaneously; this can be Match even
when the tie-broken dosage indices differ, and a Mismatch implies that
the two dosage indices (under either tie-break rule) differ — a Mismatch
that plain dosage-index comparison would miss is impossible. -/
theorem pl_vs_pl_match_characterization :
    (∀ a b : PL3, HAS_PL a = true → HAS_PL b = true →
      ((matchPLPL a b = true ↔
          ∃ k, k < 3 ∧ plGet a k = MIN_PL a ∧ plGet b k = MIN_PL b) ∧
        (matchPLPL a b = false → dsgLowest a ≠ dsgLowest b ∧ DSG_PL a ≠ DSG_PL b))) ∧
    (∃ a b : PL3, HAS_PL a = true ∧ HAS_PL b = true ∧ matchPLPL a b = true ∧
      dsgLowest a ≠ dsgLowest b) := by
  constructor
  · intro a b _ _
    refine ⟨matchPLPL_iff a b, ?_⟩
    intro hf
    constructor
    · intro heq
      have hmt : matchPLPL a b = true :=
        (matchPLPL_iff a b).mpr
          ⟨dsgLowest a, dsgLowest_lt_three a, dsgLowest_attains a, by
            rw [heq]; exact dsgLowest_attains b⟩
      rw [hmt] at hf
      exact Bool.noConfusion hf
    · intro heq
      have hmt : matchPLPL a b = true :=
        (matchPLPL_iff a b).mpr
          ⟨DSG_PL a, dsgPL_lt_three a, dsgPL_attains a, by
            rw [heq]; exact dsgPL_attains b⟩
      rw [hmt] at hf
      exact Bool.noConfusion hf
  · exact ⟨⟨0, 0, 5⟩, ⟨1, 0, 5⟩, by decide, by decide, by decide, by decide⟩

/-- C7 witness: the match characterisation instantiated at the valid
triples (1,2,3) and (4,5,6). -/
theorem pl_vs_pl_match_characterization_witness :
    matchPLPL (⟨1, 2, 3⟩ : PL3) (⟨4, 5, 6⟩ : PL3) = true ↔
      ∃ k, k < 3 ∧ plGet (⟨1, 2, 3⟩ : PL3) k = MIN_PL (⟨1, 2, 3⟩ : PL3) ∧
        plGet (⟨4, 5, 6⟩ : PL3) k = MIN_PL (⟨4, 5, 6⟩ : PL3) :=
  (pl_vs_pl_match_characterization.1 ⟨1, 2, 3⟩ ⟨4, 5, 6⟩ (by decide) (by decide)).1

/-- C7 counterexample: the claim's clause "Mismatch even when code
comparing only dosage indices would not detect it" is impossible: no pair
of valid triples is a Mismatch while having equal dosage indices (under
either the spec's lowest-tie-break rule or the source's `DSG_PL`),
because the dosage index always attains the minimum. -/
theorem pl_vs_pl_mismatch_undetected_cex :
    ¬ ∃ a b : PL3, HAS_PL a = true ∧ HAS_PL b = true ∧ matchPLPL a b = false ∧
      (dsgLowest a = dsgLowest b ∨ DSG_PL a = DSG_PL b) := by
  rintro ⟨a, b, _, _, hf, hd | hd⟩
  · have hmt : matchPLPL a b = true :=
      (matchPLPL_iff a b).mpr
        ⟨dsgLowest a, dsgLowest_lt_three a, dsgLowest_attains a, by
          rw [hd]; exact dsgLowest_attains b⟩
    rw [hmt] at hf
    exact Bool.noConfusion hf
  · have hmt : matchPLPL a b = true :=
      (matchPLPL_iff a b).mpr
        ⟨DSG_PL a, dsgPL_lt_three a, dsgPL_attains a, by
          rw [hd]; exact dsgPL_attains b⟩
    rw [hmt] at hf
    exact Bool.noConfusion hf

/-- C10: when `ncnt` is zero the top-K sort key is the guarded constant 0
(no division is performed), and under the ascending comparator
`cmp_idbl` such a never-compared pair sorts strictly before any pair with
nonzero discordance and nonzero comparisons. -/
theorem sortkey_guarded_zero (d d' c' : Nat) (hd : 0 < d') (hc : 0 < c') :
    sortKeyVal d 0 = 0 ∧ cmp_idbl (sortKeyVal d 0) (sortKeyVal d' c') = -1 := by
  have h0 : sortKeyVal d 0 = 0 := by simp [sortKeyVal]
  refine ⟨h0, ?_⟩
  have hpos : (0 : ℚ) < sortKeyVal d' c' := by
    unfold sortKeyVal
    rw [if_pos (Nat.pos_iff_ne_zero.mp hc)]
    exact div_pos (by exact_mod_cast hd) (by exact_mod_cast hc)
  unfold cmp_idbl
  rw [h0, if_pos hpos]

/-- C10 witness: the guarded sort key at `ndiff = 5, ncnt = 0` against a
pair with one mismatch out of three comparisons. -/
theorem sortkey_guarded_zero_witness :
    sortKeyVal 5 0 = 0 ∧ cmp_idbl (sortKeyVal 5 0) (sortKeyVal 1 3) = -1 :=
  sortkey_guarded_zero 5 1 3 (by norm_num) (by norm_num)

lemma crossPairs_succ (n : Nat) :
    crossPairs (n + 1) = crossPairs n ++ (List.range n).map (fun j => (n, j)) := by
  unfold crossPairs
  rw [List.range_succ, List.flatMap_append]
  simp

lemma tri_succ (k : Nat) : (k + 1) * (k + 1 - 1) / 2 = k * (k - 1) / 2 + k := by
  cases k with
  | zero => simp
  | succ j =>
    simp only [Nat.add_sub_cancel]
    rw [show (j + 1 + 1) * (j + 1) = (j + 1) * j + (j + 1) * 2 from by ring,
      Nat.add_mul_div_right _ _ (by norm_num)]

/-- C3 (amended): the cross-check enumeration (outer `i`, inner `j < i`)
maps pair `(i,j)` to the triangular index `i*(i-1)/2 + j`, and this map
is a bijection between the enumerated pairs and `[0, n*(n-1)/2)` — the
indices appear exactly in order, i.e. the k-th enumerated pair receives
index k.  However the allocated accumulator count of `init_data` is
`n*(n+1)/2`, which strictly exceeds the used range for every `n ≥ 1`, so
the map is NOT onto `[0, n_pairs)`. -/
theorem cross_triangular_indexing (n : Nat) :
    (crossPairs n).map triIdx = List.range (n * (n - 1) / 2) ∧
      (1 ≤ n → n * (n - 1) / 2 < nPairsCross n) := by
  constructor
  · induction n with
    | zero => simp [crossPairs]
    | succ k ih =>
      rw [crossPairs_succ, List.map_append, ih, tri_succ, List.range_add, List.map_map]
      refine congrArg (List.range (k * (k - 1) / 2) ++ ·) ?_
      apply List.map_congr_left
      intro j _
      simp [triIdx, Function.comp]
  · intro hn
    unfold nPairsCross
    obtain ⟨j, rfl⟩ : ∃ j, n = j + 1 := ⟨n - 1, by omega⟩
    have h2 : (j + 1) * (j + 1 + 1) / 2 = (j + 1) * j / 2 + (j + 1) := by
      rw [show (j + 1) * (j + 1 + 1) = (j + 1) * j + (j + 1) * 2 from by ring,
        Nat.add_mul_div_right _ _ (by norm_num)]
    simp only [Nat.add_sub_cancel]
    omega

/-- C3 witness: for 4 samples the enumerated pairs are
(1,0),(2,0),(2,1),(3,0),(3,1),(3,2) and they map to indices 0..5 in
order, with 6 = 4*3/2 indices used while `nPairsCross 4 = 10`. -/
theorem cross_triangular_indexing_witness :
    (crossPairs 4).map triIdx = List.range (4 * (4 - 1) / 2) ∧
      4 * (4 - 1) / 2 < nPairsCross 4 :=
  ⟨(cross_triangular_indexing 4).1, (cross_triangular_indexing 4).2 (by norm_num)⟩

/-- C3 counterexample: for 4 query samples `init_data` allocates
`npairs = 4*5/2 = 10` accumulators, but the enumerated pairs map exactly
onto {0,...,5}; index 6 lies in `[0, n_pairs)` and is hit by no pair, so
the indexing is not a bijection onto `[0, n_pairs)` as claimed. -/
theorem cross_triangular_not_onto_cex :
    nPairsCross 4 = 10 ∧ (crossPairs 4).map triIdx = [0, 1, 2, 3, 4, 5] ∧
      ∀ p ∈ crossPairs 4, triIdx p ≠ 6 := by
  decide

lemma min_af_pos : (0 : ℝ) < min_af := by
  unfold min_af
  norm_num

lemma min_af_lt : min_af < 1 - min_af := by
  unfold min_af
  norm_num

lemma hweArg0_eq (af : ℝ) : hweArg0 af = (max af min_af) ^ 2 := by
  unfold hweArg0
  split_ifs with h
  · rw [max_eq_left h.le, pow_two]
  · rw [max_eq_right (le_of_not_lt h), pow_two]

lemma hweArg1_eq (af : ℝ) : hweArg1 af = 2 * clampE af * clampE (1 - af) := by
  unfold hweArg1 clampE
  split_ifs with h
  · obtain ⟨h1, h2⟩ := h
    rw [max_eq_left h1.le, min_eq_left h2.le, max_eq_left (by linarith),
      min_eq_left (by linarith)]
  · rcases not_and_or.mp h with h1 | h2
    · have hle : af ≤ min_af := le_of_not_lt h1
      have e2 : min_af ≤ 1 - min_af := min_af_lt.le
      rw [max_eq_right hle, min_eq_left e2, max_eq_left (by linarith),
        min_eq_right (by linarith)]
    · have hge : 1 - min_af ≤ af := le_of_not_lt h2
      have e2 : min_af ≤ 1 - min_af := min_af_lt.le
      rw [max_eq_left (by linarith), min_eq_right (by linarith),
        max_eq_right (by linarith), min_eq_left e2]
      ring

lemma hweArg2_eq (af : ℝ) : hweArg2 af = (max (1 - af) min_af) ^ 2 := by
  unfold hweArg2
  split_ifs with h
  · rw [max_eq_left (by linarith), pow_two]
  · rw [max_eq_right (by linarith [le_of_not_lt h]), pow_two]

lemma hweArg0_pos (af : ℝ) : 0 < hweArg0 af := by
  unfold hweArg0
  split_ifs with h
  · have ha : 0 < af := lt_trans min_af_pos h
    exact mul_pos ha ha
  · exact mul_pos min_af_pos min_af_pos

lemma hweArg1_pos (af : ℝ) : 0 < hweArg1 af := by
  unfold hweArg1
  split_ifs with h
  · obtain ⟨h1, h2⟩ := h
    have ha : 0 < af := lt_trans min_af_pos h1
    have hb : 0 < 1 - af := by linarith [min_af_pos]
    exact mul_pos (mul_pos (by norm_num) ha) hb
  · have := min_af_pos
    have := min_af_lt
    exact mul_pos (mul_pos (by norm_num) min_af_pos) (by linarith)

lemma hweArg2_pos (af : ℝ) : 0 < hweArg2 af := by
  unfold hweArg2
  split_ifs with h
  · have hb : 0 < 1 - af := by linarith [min_af_pos]
    exact mul_pos hb hb
  · exact mul_pos min_af_pos min_af_pos

lemma hweArg0_half : hweArg0 ((1 : ℝ) / 2) = 1 / 4 := by
  unfold hweArg0
  rw [if_pos (show min_af < (1 : ℝ) / 2 from by unfold min_af; norm_num)]
  norm_num

lemma hweArg1_half : hweArg1 ((1 : ℝ) / 2) = 1 / 2 := by
  unfold hweArg1
  rw [if_pos
    (show min_af < (1 : ℝ) / 2 ∧ (1 : ℝ) / 2 < 1 - min_af from by unfold min_af; constructor <;> norm_num)]
  norm_num

lemma hweArg2_half : hweArg2 ((1 : ℝ) / 2) = 1 / 4 := by
  unfold hweArg2
  rw [if_pos (show (1 : ℝ) / 2 < 1 - min_af from by unfold min_af; norm_num)]
  norm_num

/-- C5: the HWE scorer of `process_line` computes exactly the clamped
negative-log scores the spec states
(`score[0] = -log(max(af,ε)²)`, `score[1] = -log(2·clamp(af)·clamp(1-af))`,
`score[2] = -log(max(1-af,ε)²)` with `ε = 1e-3`); at `af = 1/2` it holds
that `score[1] < score[0] = score[2]`, and for every `af` each logarithm
argument is strictly positive, so no score is `-log 0`. -/
theorem hwe_scores_spec (af : ℝ) (_haf : af ∈ Set.Icc (0 : ℝ) 1) :
    (hwe0 af = -Real.log ((max af min_af) ^ 2) ∧
      hwe1 af = -Real.log (2 * clampE af * clampE (1 - af)) ∧
      hwe2 af = -Real.log ((max (1 - af) min_af) ^ 2)) ∧
    (hwe1 ((1 : ℝ) / 2) < hwe0 ((1 : ℝ) / 2) ∧
      hwe0 ((1 : ℝ) / 2) = hwe2 ((1 : ℝ) / 2)) ∧
    (0 < hweArg0 af ∧ 0 < hweArg1 af ∧ 0 < hweArg2 af) := by
  refine ⟨⟨?_, ?_, ?_⟩, ⟨?_, ?_⟩, hweArg0_pos af, hweArg1_pos af, hweArg2_pos af⟩
  · rw [hwe0, hweArg0_eq]
  · rw [hwe1, hweArg1_eq]
  · rw [hwe2, hweArg2_eq]
  · unfold hwe1 hwe0
    rw [hweArg1_half, hweArg0_half]
    have hlog := Real.log_lt_log (show (0 : ℝ) < 1 / 4 from by norm_num)
      (show (1 : ℝ) / 4 < 1 / 2 from by norm_num)
    linarith
  · unfold hwe0 hwe2
    rw [hweArg0_half, hweArg2_half]

/-- C5 witness: the full statement instantiated at `af = 1/2 ∈ [0,1]`. -/
theorem hwe_scores_spec_witness :
    ((1 : ℝ) / 2) ∈ Set.Icc (0 : ℝ) 1 ∧
      hwe1 ((1 : ℝ) / 2) < hwe0 ((1 : ℝ) / 2) :=
  ⟨by constructor <;> norm_num,
    (hwe_scores_spec ((1 : ℝ) / 2) (by constructor <;> norm_num)).2.1.1⟩

/-- The streaming invariant of C6: every pair's mismatch count is
bounded by its comparison count. -/
def AccumInv (acc : Accum) : Prop := ∀ p, acc.ndiff p ≤ acc.ncnt p

lemma bumpDiff_inv (i : Nat) (acc : Accum) (h : AccumInv acc) :
    AccumInv (bumpDiff i acc) := by
  intro p
  show Function.update acc.ndiff i (acc.ndiff i + 1) p ≤
    Function.update acc.ncnt i (acc.ncnt i + 1) p
  simp only [Function.update_apply]
  split_ifs with hpi
  · exact Nat.add_le_add_right (h i) 1
  · exact h p

lemma bumpMatch_inv (c : Bool) (hs : Nat → ℚ) (d i : Nat) (acc : Accum)
    (h : AccumInv acc) : AccumInv (bumpMatch c hs d i acc) := by
  intro p
  show acc.ndiff p ≤ Function.update acc.ncnt i (acc.ncnt i + 1) p
  simp only [Function.update_apply]
  split_ifs with hpi
  · subst hpi
    exact le_trans (h p) (Nat.le_succ _)
  · exact h p

lemma stepGTGT_inv (ho c : Bool) (hs : Nat → ℚ) (i : Nat) (a b : GTpair)
    (acc : Accum) (h : AccumInv acc) : AccumInv (stepGTGT ho c hs i a b acc) := by
  simp only [stepGTGT]
  split_ifs <;> first
    | exact h
    | exact bumpDiff_inv _ _ h
    | exact bumpMatch_inv _ _ _ _ _ h

lemma stepPLPL_inv (ho c : Bool) (hs : Nat → ℚ) (i : Nat) (a b : PL3)
    (acc : Accum) (h : AccumInv acc) : AccumInv (stepPLPL ho c hs i a b acc) := by
  simp only [stepPLPL]
  split_ifs <;> first
    | exact h
    | exact bumpDiff_inv _ _ h
    | exact bumpMatch_inv _ _ _ _ _ h

lemma stepGTPL_inv (ho c : Bool) (hs : Nat → ℚ) (i : Nat) (a : GTpair) (b : PL3)
    (acc : Accum) (h : AccumInv acc) : AccumInv (stepGTPL ho c hs i a b acc) := by
  simp only [stepGTPL]
  split_ifs <;> first
    | exact h
    | exact bumpDiff_inv _ _ h
    | exact bumpMatch_inv _ _ _ _ _ h

lemma stepPLGT_inv (ho c : Bool) (hs : Nat → ℚ) (i : Nat) (a : PL3) (b : GTpair)
    (acc : Accum) (h : AccumInv acc) : AccumInv (stepPLGT ho c hs i a b acc) := by
  simp only [stepPLGT]
  split_ifs <;> first
    | exact h
    | exact bumpDiff_inv _ _ h
    | exact bumpMatch_inv _ _ _ _ _ h

lemma foldl_inv {α β : Type _} (P : β → Prop) (f : β → α → β)
    (hf : ∀ b a, P b → P (f b a)) :
    ∀ (l : List α) (b : β), P b → P (l.foldl f b) := by
  intro l
  induction l with
  | nil => intro b hb; simpa using hb
  | cons x xs ih => intro b hb; simpa using ih (f b x) (hf b x hb)

lemma processPairs_inv (cfg : Cfg) (s : Site) (ps : List (Nat × Nat)) (acc : Accum)
    (h : AccumInv acc) : AccumInv (processPairs cfg s ps acc) := by
  simp only [processPairs]
  split_ifs
  all_goals
    refine foldl_inv AccumInv _ ?_ ps.enum acc h
    intro b x hb
    first
      | exact stepGTGT_inv _ _ _ _ _ _ _ hb
      | exact stepPLPL_inv _ _ _ _ _ _ _ hb
      | exact stepGTPL_inv _ _ _ _ _ _ _ hb
      | exact stepPLGT_inv _ _ _ _ _ _ _ hb

lemma matrixGTGT_inv (cfg : Cfg) (hs : Nat → ℚ) (aD bD : Nat → GTpair) (acc : Accum)
    (h : AccumInv acc) : AccumInv (matrixGTGT cfg hs aD bD acc) := by
  unfold matrixGTGT
  refine foldl_inv (fun st : Nat × Accum => AccumInv st.2) _ ?_ _ _ h
  intro st i hst
  dsimp only
  split_ifs
  all_goals
    first
      | exact hst
      | (refine foldl_inv (fun st2 : Nat × Accum => AccumInv st2.2) _ ?_ _ _ hst
         intro st2 j hst2
         dsimp only
         split_ifs <;>
           first
             | exact hst2
             | exact bumpDiff_inv _ _ hst2
             | exact bumpMatch_inv _ _ _ _ _ hst2)

lemma matrixPLPL_inv (cfg : Cfg) (hs : Nat → ℚ) (aD bD : Nat → PL3) (acc : Accum)
    (h : AccumInv acc) : AccumInv (matrixPLPL cfg hs aD bD acc) := by
  unfold matrixPLPL
  refine foldl_inv (fun st : Nat × Accum => AccumInv st.2) _ ?_ _ _ h
  intro st i hst
  dsimp only
  split_ifs
  all_goals
    first
      | exact hst
      | (refine foldl_inv (fun st2 : Nat × Accum => AccumInv st2.2) _ ?_ _ _ hst
         intro st2 j hst2
         dsimp only
         split_ifs <;>
           first
             | exact hst2
             | exact bumpDiff_inv _ _ hst2
             | exact bumpMatch_inv _ _ _ _ _ hst2)

lemma matrixGTPL_inv (cfg : Cfg) (hs : Nat → ℚ) (aD : Nat → GTpair) (bD : Nat → PL3)
    (acc : Accum) (h : AccumInv acc) : AccumInv (matrixGTPL cfg hs aD bD acc) := by
  unfold matrixGTPL
  refine foldl_inv (fun st : Nat × Accum => AccumInv st.2) _ ?_ _ _ h
  intro st i hst
  dsimp only
  split_ifs
  all_goals
    first
      | exact hst
      | (refine foldl_inv (fun st2 : Nat × Accum => AccumInv st2.2) _ ?_ _ _ hst
         intro st2 j hst2
         dsimp only
         split_ifs <;>
           first
             | exact hst2
             | exact bumpDiff_inv _ _ hst2
             | exact bumpMatch_inv _ _ _ _ _ hst2)

lemma matrixPLGT_inv (cfg : Cfg) (hs : Nat → ℚ) (aD : Nat → PL3) (bD : Nat → GTpair)
    (acc : Accum) (h : AccumInv acc) : AccumInv (matrixPLGT cfg hs aD bD acc) := by
  unfold matrixPLGT
  refine foldl_inv (fun st : Nat × Accum => AccumInv st.2) _ ?_ _ _ h
  intro st i hst
  dsimp only
  split_ifs
  all_goals
    first
      | exact hst
      | (refine foldl_inv (fun st2 : Nat × Accum => AccumInv st2.2) _ ?_ _ _ hst
         intro st2 j hst2
         dsimp only
         split_ifs <;>
           first
             | exact hst2
             | exact bumpDiff_inv _ _ hst2
             | exact bumpMatch_inv _ _ _ _ _ hst2)

lemma processCore_inv (cfg : Cfg) (s : Site) (acc : Accum) (h : AccumInv acc) :
    AccumInv (processCore cfg s acc) := by
  unfold processCore
  cases cfg.pairs with
  | some ps => exact processPairs_inv cfg s ps acc h
  | none =>
    dsimp only
    split_ifs
    · exact matrixGTGT_inv _ _ _ _ _ h
    · exact matrixGTGT_inv _ _ _ _ _ h
    · exact matrixPLPL_inv _ _ _ _ _ h
    · exact matrixPLPL_inv _ _ _ _ _ h
    · exact matrixGTPL_inv _ _ _ _ _ h
    · exact matrixGTPL_inv _ _ _ _ _ h
    · exact matrixPLGT_inv _ _ _ _ _ h
    · exact matrixPLGT_inv _ _ _ _ _ h

lemma process_line_inv (cfg : Cfg) (s : Site) (acc acc2 : Accum)
    (h : process_line cfg s acc = Except.ok acc2) (hi : AccumInv acc) : AccumInv acc2 := by
  unfold process_line at h
  split_ifs at h
  · exact (Except.ok.inj h) ▸ hi
  · exact (Except.ok.inj h) ▸ hi
  · exact (Except.ok.inj h) ▸ processCore_inv cfg s acc hi

lemma processStream_inv (cfg : Cfg) : ∀ (sites : List Site) (acc st : Accum),
    AccumInv acc → processStream cfg acc sites = Except.ok st → AccumInv st := by
  intro sites
  induction sites with
  | nil =>
    intro acc st hi h
    simp only [processStream] at h
    exact (Except.ok.inj h) ▸ hi
  | cons s rest ih =>
    intro acc st hi h
    simp only [processStream] at h
    cases hpl : process_line cfg s acc with
    | error e => rw [hpl] at h; simp at h
    | ok acc' =>
      rw [hpl] at h
      exact ih acc' st (process_line_inv cfg s acc acc' hpl hi) h

/-- C6: after processing any prefix of the variant stream — in any mode
(explicit pairs, rectangular, or cross-check, all covered by `Cfg`) —
every pair's mismatch count is at most its comparison count: each branch
of `process_line` that increments `ndiff[p]` also increments `ncnt[p]`. -/
theorem mismatch_le_compared (cfg : Cfg) (sites : List Site) (st : Accum)
    (h : processStream cfg initAccum sites = Except.ok st) :
    ∀ p, st.ndiff p ≤ st.ncnt p :=
  processStream_inv cfg sites initAccum st (fun _ => Nat.le_refl 0) h

/-- A trivial run configuration used to instantiate hypotheses at
concrete inputs. -/
def cfgTriv : Cfg := ⟨true, true, false, false, false, false, none, 0, 0, none, none⟩

/-- C6 witness: the invariant instantiated on the empty stream. -/
theorem mismatch_le_compared_witness : initAccum.ndiff 0 ≤ initAccum.ncnt 0 :=
  mismatch_le_compared cfgTriv [] initAccum rfl 0

/-- C8: a site whose per-sample block is not diploid-shaped (fetch failed
because the required tag is absent, or the flat array is not 2 values per
sample for GT / 3 values per sample for PL) is silently skipped:
`process_line` returns without touching any accumulator and without a
fatal error. -/
theorem shape_mismatch_skipped (cfg : Cfg) (s : Site) (acc : Accum)
    (h : qryShapeOk cfg s = false ∨ (cfg.twoFiles = true ∧ gtShapeOk cfg s = false)) :
    process_line cfg s acc = Except.ok acc := by
  rcases h with h | ⟨h1, h2⟩
  · simp [process_line, h]
  · simp [process_line, h1, h2]

/-- A site whose query fetch failed (`bcf_get_genotypes` returned 0):
tag absent. -/
def siteBad : Site :=
  ⟨0, 0, 1, 1, fun _ => ⟨GTval.missing, GTval.missing⟩, fun _ => ⟨0, 0, 0⟩,
    fun _ => ⟨GTval.missing, GTval.missing⟩, fun _ => ⟨0, 0, 0⟩, true, fun _ => 0⟩

/-- C8 witness: the skip instantiated at a concrete site with a failed
query fetch. -/
theorem shape_mismatch_skipped_witness :
    qryShapeOk cfgTriv siteBad = false ∧
      process_line cfgTriv siteBad initAccum = Except.ok initAccum :=
  ⟨by decide, shape_mismatch_skipped cfgTriv siteBad initAccum (Or.inl (by decide))⟩

lemma ds_step_ok_of_card (m : Nat) (st : DrainSt) (r : Nat × Finset Nat)
    (hc : (r.2).card = r.1) : ∃ st', ds_step m st r = Except.ok st' := by
  unfold ds_step
  rw [if_neg (by simp [hc])]
  split_ifs <;> exact ⟨_, rfl⟩

lemma ds_step_error_of_card (m : Nat) (st : DrainSt) (r : Nat × Finset Nat)
    (hc : (r.2).card ≠ r.1) : ds_step m st r = Except.error () := by
  unfold ds_step
  rw [if_pos hc]

lemma ds_drain_ok_iff (m : Nat) : ∀ (rs : List (Nat × Finset Nat)) (st : DrainSt),
    (∃ st', ds_drain m st rs = Except.ok st') ↔ ∀ r ∈ rs, (r.2).card = r.1 := by
  intro rs
  induction rs with
  | nil =>
    intro st
    simp [ds_drain]
  | cons r rest ih =>
    intro st
    by_cases hc : (r.2).card = r.1
    · obtain ⟨st1, h1⟩ := ds_step_ok_of_card m st r hc
      simp only [ds_drain, h1]
      rw [List.forall_mem_cons]
      constructor
      · intro hok
        exact ⟨hc, (ih st1).mp hok⟩
      · intro ⟨_, hrest⟩
        exact (ih st1).mpr hrest
    · have h1 := ds_step_error_of_card m st r hc
      simp only [ds_drain, h1]
      rw [List.forall_mem_cons]
      constructor
      · rintro ⟨st', hst'⟩
        exact absurd hst' (by simp)
      · intro ⟨habs, _⟩
        exact absurd habs hc

/-- C9: the drain of `report_distinctive_sites` completes normally if and
only if every popped record's recomputed popcount equals its stored
`ndiff`; any record violating this terminates the run fatally
(`throw_and_clean`), and the check never fires otherwise. -/
theorem ds_corruption_fatal (m : Nat) (recs : List (Nat × Finset Nat)) :
    (∃ st, ds_run m recs = Except.ok st) ↔ ∀ r ∈ recs, (r.2).card = r.1 :=
  ds_drain_ok_iff m recs ⟨∅, 0, 0, []⟩

/-- C9 witness: a consistent single-record drain completes normally (and,
by the same equivalence, would abort fatally were the stored count
wrong). -/
theorem ds_corruption_fatal_witness :
    ∃ st, ds_run 1 [(1, ({0} : Finset Nat))] = Except.ok st :=
  (ds_corruption_fatal 1 [(1, {0})]).mpr (by decide)

/-- Union of a list of bitsets (the set of pairs discordant at some
site). -/
def unionList (l : List (Finset Nat)) : Finset Nat := l.foldr (· ∪ ·) ∅

lemma unionList_cons (x : Finset Nat) (l : List (Finset Nat)) :
    unionList (x :: l) = x ∪ unionList l := rfl

lemma mem_subset_unionList :
    ∀ (l : List (Finset Nat)) (r : Finset Nat), r ∈ l → r ⊆ unionList l := by
  intro l
  induction l with
  | nil => intro r hr; exact absurd hr (List.not_mem_nil r)
  | cons x xs ih =>
    intro r hr
    rw [unionList_cons]
    rcases List.mem_cons.mp hr with rfl | hr
    · exact Finset.subset_union_left
    · exact (ih r hr).trans Finset.subset_union_right

lemma ds_drain_no_reset (m : Nat) (B : Finset Nat) (hB : B.card < m) :
    ∀ (rs : List (Finset Nat)) (st : DrainSt),
      (∀ r ∈ rs, r ⊆ B) → st.blk ⊆ B → st.tot = st.blk.card →
      ∃ ls, ds_drain m st (rs.map (fun r => (r.card, r))) =
          Except.ok ⟨st.blk ∪ unionList rs, (st.blk ∪ unionList rs).card, st.iblock,
            st.lines ++ ls⟩ ∧
        ∀ l ∈ ls, l.2 = st.iblock := by
  intro rs
  induction rs with
  | nil =>
    intro st hrs hblk htot
    refine ⟨[], ?_, by simp⟩
    simp only [List.map_nil, ds_drain, unionList, List.foldr_nil, Finset.union_empty,
      List.append_nil]
    cases st with
    | mk blk tot ib lines =>
      simp only at htot ⊢
      rw [htot]
  | cons r rest ih =>
    intro st hrs hblk htot
    have hrB : r ⊆ B := hrs r (List.mem_cons_self r rest)
    by_cases h0 : (r \ st.blk).card = 0
    · have hsub : r ⊆ st.blk :=
        Finset.sdiff_eq_empty_iff_subset.mp (Finset.card_eq_zero.mp h0)
      have hstep : ds_step m st (r.card, r) = Except.ok { st with blk := st.blk ∪ r } := by
        unfold ds_step
        rw [if_neg (by simp), if_pos h0]
      have hent : st.blk ∪ r = st.blk := Finset.union_eq_left.mpr hsub
      obtain ⟨ls, hrun, hls⟩ := ih { st with blk := st.blk ∪ r }
        (fun r' hr' => hrs r' (List.mem_cons_of_mem r hr'))
        (by simp only; rw [hent]; exact hblk)
        (by simp only; rw [hent]; exact htot)
      refine ⟨ls, ?_, hls⟩
      simp only [List.map_cons, ds_drain, hstep]
      rw [hrun]
      have hU : (st.blk ∪ r) ∪ unionList rest = st.blk ∪ unionList (r :: rest) := by
        rw [unionList_cons, Finset.union_assoc]
      rw [hU]
    · have hcard : st.tot + (r \ st.blk).card = (st.blk ∪ r).card := by
        rw [htot, Finset.union_comm, Nat.add_comm]
        exact Finset.card_sdiff_add_card r st.blk
      have hlt : st.tot + (r \ st.blk).card < m := by
        rw [hcard]
        exact lt_of_le_of_lt (Finset.card_le_card (Finset.union_subset hblk hrB)) hB
      have hstep : ds_step m st (r.card, r) =
          Except.ok ⟨st.blk ∪ r, st.tot + (r \ st.blk).card, st.iblock,
            st.lines ++ [(st.tot + (r \ st.blk).card, st.iblock)]⟩ := by
        unfold ds_step
        rw [if_neg (by simp), if_neg h0, if_pos hlt]
      obtain ⟨ls, hrun, hls⟩ := ih
        ⟨st.blk ∪ r, st.tot + (r \ st.blk).card, st.iblock,
          st.lines ++ [(st.tot + (r \ st.blk).card, st.iblock)]⟩
        (fun r' hr' => hrs r' (List.mem_cons_of_mem r hr'))
        (Finset.union_subset hblk hrB)
        (by simp only; rw [hcard])
      refine ⟨(st.tot + (r \ st.blk).card, st.iblock) :: ls, ?_, ?_⟩
      · simp only [List.map_cons, ds_drain, hstep]
        rw [hrun]
        have hU : (st.blk ∪ r) ∪ unionList rest = st.blk ∪ unionList (r :: rest) := by
          rw [unionList_cons, Finset.union_assoc]
        rw [hU, List.append_assoc]
        rfl
      · intro l hl
        rcases List.mem_cons.mp hl with rfl | hl
        · rfl
        · exact hls l hl

/-- C4 (amended): in distinctive-sites mode with the threshold equal to
`n_pairs`, as long as at least one pair is never discordant (the running
total can then never reach `n_pairs`), every emitted `DS` line carries
block id 0, at least one line is emitted when some record exists, and the
single block's bitset accumulates every pair that is discordant at some
site.  (Without the "some pair is never discordant" proviso the claim is
false: once every pair is distinguished the block closes and later
discordant sites open block 1 — see the counterexample.) -/
theorem ds_single_block (npairs : Nat) (recs : List (Finset Nat))
    (hne : ∀ r ∈ recs, r.Nonempty)
    (hlt : ∀ r ∈ recs, ∀ i ∈ r, i < npairs)
    (hmiss : ∃ p, p < npairs ∧ ∀ r ∈ recs, p ∉ r)
    (hnonempty : recs ≠ []) :
    ∃ st, ds_run npairs (recs.map (fun r => (r.card, r))) = Except.ok st ∧
      st.lines ≠ [] ∧ (∀ l ∈ st.lines, l.2 = 0) ∧ ∀ r ∈ recs, r ⊆ st.blk := by
  obtain ⟨p, hp, hpnot⟩ := hmiss
  have hBcard : ((Finset.range npairs).erase p).card < npairs := by
    rw [Finset.card_erase_of_mem (Finset.mem_range.mpr hp), Finset.card_range]
    omega
  have hsubB : ∀ r ∈ recs, r ⊆ (Finset.range npairs).erase p := by
    intro r hr i hi
    exact Finset.mem_erase.mpr
      ⟨fun he => hpnot r hr (he ▸ hi), Finset.mem_range.mpr (hlt r hr i hi)⟩
  cases recs with
  | nil => exact absurd rfl hnonempty
  | cons r0 rest =>
    have hr0B : r0 ⊆ (Finset.range npairs).erase p := hsubB r0 (List.mem_cons_self r0 rest)
    have hr0card : (r0 \ (∅ : Finset Nat)).card ≠ 0 := by
      rw [Finset.sdiff_empty]
      exact (Finset.card_pos.mpr (hne r0 (List.mem_cons_self r0 rest))).ne'
    have hlt0 : (0 : Nat) + (r0 \ (∅ : Finset Nat)).card < npairs := by
      rw [Finset.sdiff_empty, Nat.zero_add]
      exact lt_of_le_of_lt (Finset.card_le_card hr0B) hBcard
    have hstep : ds_step npairs ⟨∅, 0, 0, []⟩ (r0.card, r0) =
        Except.ok ⟨r0, r0.card, 0, [(r0.card, 0)]⟩ := by
      unfold ds_step
      rw [if_neg (by simp), if_neg hr0card, if_pos hlt0]
      simp [Finset.sdiff_empty]
    obtain ⟨ls, hrun, hls⟩ := ds_drain_no_reset npairs ((Finset.range npairs).erase p)
      hBcard rest ⟨r0, r0.card, 0, [(r0.card, 0)]⟩
      (fun r' hr' => hsubB r' (List.mem_cons_of_mem r0 hr'))
      hr0B rfl
    refine ⟨⟨r0 ∪ unionList rest, (r0 ∪ unionList rest).card, 0, [(r0.card, 0)] ++ ls⟩,
      ?_, by simp, ?_, ?_⟩
    · unfold ds_run
      simp only [List.map_cons, ds_drain, hstep]
      exact hrun
    · intro l hl
      rcases List.mem_append.mp hl with hl | hl
      · rw [List.mem_singleton.mp hl]
      · exact hls l hl
    · intro r hr
      rcases List.mem_cons.mp hr with rfl | hr
      · exact Finset.subset_union_left
      · exact (mem_subset_unionList rest r hr).trans Finset.subset_union_right

/-- C4 witness: a two-pair run with a single one-pair record: the drain
emits exactly one line, in block 0, covering the one discordant pair. -/
theorem ds_single_block_witness :
    ∃ st, ds_run 2 ([({0} : Finset Nat)].map (fun r => (r.card, r))) = Except.ok st ∧
      st.lines ≠ [] ∧ (∀ l ∈ st.lines, l.2 = 0) ∧
      ∀ r ∈ [({0} : Finset Nat)], r ⊆ st.blk :=
  ds_single_block 2 [{0}] (by decide) (by decide) ⟨1, by decide⟩ (by decide)

/-- C4 counterexample: with `n_pairs = 1` and threshold `= n_pairs = 1`,
two sites that are each discordant in the single pair produce DS lines in
two distinct blocks (ids 0 and 1): after every pair is distinguished the
block closes and the next discordant site opens block 1, so "exactly one
block is ever emitted" is false. -/
theorem ds_single_block_cex :
    ds_run 1 [(1, ({0} : Finset Nat)), (1, {0})] =
      Except.ok ⟨∅, 0, 2, [(1, 0), (1, 1)]⟩ := rfl

end Gtcheck
